import Mathlib

/-!
Verification of the update negotiation subsystem of the
`cg500_blueteeth_app` repository.

Python strings are modelled as `List Char` and Python string operations
(`str.split`, `int()`, `str.isalnum`, `str.strip`) as executable Lean
functions over `List Char`.  Each modelled repository function carries a
comment naming its source location.  Definitions whose doc comment starts
with `Modelled from the spec` follow the specification's words rather than
any source function; they exist to compare the specified behaviour with the
implemented one.
-/

/-- Numeric value of a list of decimal digit characters, most significant
first; this is what Python `int()` computes on a digit-only string. -/
def digitsVal (l : List Char) : ℕ :=
  l.foldl (fun a c => 10 * a + (c.toNat - 48)) 0

/-- A nonempty, all-decimal-digit list of characters (one `\d+` group). -/
def Digits1 (l : List Char) : Prop :=
  l ≠ [] ∧ l.all Char.isDigit = true

instance (l : List Char) : Decidable (Digits1 l) := by
  unfold Digits1; infer_instance

/-- Decimal digit character for a value below ten. -/
def digitChar (n : ℕ) : Char :=
  if n = 0 then '0' else if n = 1 then '1' else if n = 2 then '2'
  else if n = 3 then '3' else if n = 4 then '4' else if n = 5 then '5'
  else if n = 6 then '6' else if n = 7 then '7' else if n = 8 then '8'
  else '9'

/-- Fuel-driven helper for `natDigits`; the fuel only enforces structural
termination and is always sufficient at the call site. -/
def natDigitsAux : ℕ → ℕ → List Char
  | 0, _ => []
  | fuel + 1, n =>
    if n < 10 then [digitChar n]
    else natDigitsAux fuel (n / 10) ++ [digitChar (n % 10)]

/-- Decimal rendering of a natural number, most significant digit first;
models Python `str()`/f-string interpolation of a nonnegative int. -/
def natDigits (n : ℕ) : List Char :=
  natDigitsAux (n + 1) n

/-- Python `str.split(sep)` for a single-character separator: splitting the
empty string gives `[""]`, and every separator occurrence opens a new chunk. -/
def pySplit (sep : Char) : List Char → List (List Char)
  | [] => [[]]
  | c :: cs =>
    if c = sep then [] :: pySplit sep cs
    else List.modifyHead (fun h => c :: h) (pySplit sep cs)

/-- Whitespace characters stripped by Python `int()` (ASCII fragment). -/
def isPySpace (c : Char) : Bool :=
  c = ' ' || c = '\t' || c = '\n' || c = '\r' || c = '\x0b' || c = '\x0c'

/-- Remove leading and trailing characters satisfying `p` (Python `strip`). -/
def stripChars (p : Char → Bool) (l : List Char) : List Char :=
  ((l.dropWhile p).reverse.dropWhile p).reverse

/-- Digit-run acceptance used by `pyInt`: a nonempty all-digit list. -/
def pyNatDigits (ds : List Char) : Option ℕ :=
  if Digits1 ds then some (digitsVal ds) else none

/-- Sign handling of Python `int()` after stripping: an optional single
leading `+` or `-` followed directly by a nonempty digit run. -/
def pyIntCore (l : List Char) : Option ℤ :=
  if l.head? = some '+' then (pyNatDigits l.tail).map Int.ofNat
  else if l.head? = some '-' then (pyNatDigits l.tail).map (fun n => -(n : ℤ))
  else (pyNatDigits l).map Int.ofNat

/-- Python `int(s)` on ASCII input: strips surrounding whitespace, accepts an
optional sign followed by decimal digits, fails (raises `ValueError`) on
anything else.  Underscore separators and non-ASCII digits, which CPython
also accepts, are outside the modelled character range. -/
def pyInt (l : List Char) : Option ℤ :=
  pyIntCore (stripChars isPySpace l)

/-- Python list comprehension `[int(x) for x in parts]` with exception
semantics: any failing conversion fails the whole list. -/
def pyIntList : List (List Char) → Option (List ℤ)
  | [] => some []
  | p :: ps =>
    match pyInt p, pyIntList ps with
    | some v, some vs => some (v :: vs)
    | _, _ => none

/-- Longest leading digit run and the remainder, as a regex `(\d+)` group
match at the front of the input: fails when no digit leads. -/
def chompDigits (s : List Char) : Option (List Char × List Char) :=
  if s.takeWhile Char.isDigit = [] then none
  else some (s.takeWhile Char.isDigit, s.dropWhile Char.isDigit)

/-- Consume one expected literal character at the front of the input. -/
def expectChar (c : Char) : List Char → Option (List Char)
  | [] => none
  | x :: r => if x = c then some r else none

/-- Modelled from the spec: the §4.1 grammar `\d+\.\d+\.\d+(\+\d+)?` matched
against the whole text, returning the matched digit groups (the build group
is `none` when the optional `+\d+` part is absent). -/
def specGroups (s : List Char) :
    Option (List Char × List Char × List Char × Option (List Char)) :=
  (chompDigits s).bind fun p1 =>
  (expectChar '.' p1.2).bind fun r1 =>
  (chompDigits r1).bind fun p2 =>
  (expectChar '.' p2.2).bind fun r2 =>
  (chompDigits r2).bind fun p3 =>
  if p3.2 = [] then some (p1.1, p2.1, p3.1, none)
  else
    (expectChar '+' p3.2).bind fun r3 =>
    (chompDigits r3).bind fun p4 =>
    if p4.2 = [] then some (p1.1, p2.1, p3.1, some p4.1) else none

/-- Numeric version key `(major, minor, patch, build?)` extracted from the
grammar groups of `specGroups`. -/
def keyOf (g : List Char × List Char × List Char × Option (List Char)) :
    ℕ × ℕ × ℕ × Option ℕ :=
  (digitsVal g.1, digitsVal g.2.1, digitsVal g.2.2.1, g.2.2.2.map digitsVal)

/-- Modelled from the spec: `parse(text)` of §4.1 as a total function to an
optional version key; `none` is the `MalformedVersion` outcome. -/
def specParse (s : List Char) : Option (ℕ × ℕ × ℕ × Option ℕ) :=
  (specGroups s).map keyOf

namespace UpdateVersion

/-- `parse_version` of `scripts/update_version.py` lines 40-51 (identical to
`SimpleReleaseManager.parse_version` of `scripts/simple_release.py` lines
47-58): `re.match(r'^(\d+)\.(\d+)\.(\d+)\+(\d+)$', s)` followed by `int()`
on the four groups.  Python `$` also matches just before one trailing
newline, hence the `r4 = ['\n']` case.  `none` models the raised
`ValueError("Invalid version format: ...")`. -/
def parse_version (s : List Char) : Option (ℕ × ℕ × ℕ × ℕ) :=
  (chompDigits s).bind fun p1 =>
  (expectChar '.' p1.2).bind fun r1 =>
  (chompDigits r1).bind fun p2 =>
  (expectChar '.' p2.2).bind fun r2 =>
  (chompDigits r2).bind fun p3 =>
  (expectChar '+' p3.2).bind fun r3 =>
  (chompDigits r3).bind fun p4 =>
  if p4.2 = [] ∨ p4.2 = ['\n'] then
    some (digitsVal p1.1, digitsVal p2.1, digitsVal p3.1, digitsVal p4.1)
  else none

/-- `format_version` of `scripts/update_version.py` lines 53-55 (identical to
`SimpleReleaseManager.format_version`): the f-string
`"{major}.{minor}.{patch}+{build}"`. -/
def format_version (m n p b : ℕ) : List Char :=
  natDigits m ++ '.' :: natDigits n ++ '.' :: natDigits p ++ '+' :: natDigits b

end UpdateVersion

namespace UpdateServer

/-- Python tuple `<` on integer tuples, as used by `compare_versions` of
`scripts/update_server.py`: lexicographic, a strict prefix sorts lower. -/
def pyTupleLt : List ℤ → List ℤ → Bool
  | [], [] => false
  | [], _ :: _ => true
  | _ :: _, [] => false
  | a :: as, b :: bs =>
    if a < b then true else if b < a then false else pyTupleLt as bs

/-- The inner `version_tuple` of `compare_versions`
(`scripts/update_server.py` lines 67-68): `tuple(map(int, v.split('.')))`;
`none` models the `ValueError` raised by a failing `int()`. -/
def version_tuple (v : List Char) : Option (List ℤ) :=
  pyIntList (pySplit '.' v)

/-- `compare_versions` of `scripts/update_server.py` lines 65-73:
`(t1 > t2) - (t1 < t2)` on the two version tuples, with the surrounding
`try/except ValueError: return 0`. -/
def compare_versions (v1 v2 : List Char) : ℤ :=
  match version_tuple v1, version_tuple v2 with
  | some t1, some t2 =>
    (if pyTupleLt t2 t1 then 1 else 0) - (if pyTupleLt t1 t2 then 1 else 0)
  | _, _ => 0

/-- One entry of `VERSION_CONFIG` in `scripts/update_server.py` lines 44-63. -/
structure VersionEntry where
  latest_version : List Char
  download_url : String
  download_size : ℕ
  release_notes : String
  is_forced : Bool
  update_type : String
  release_date : String
deriving DecidableEq

/-- The `'1.0.0'` entry of `VERSION_CONFIG` (lines 45-53). -/
def entry_1_0_0 : VersionEntry :=
  { latest_version := "1.1.0".data
    download_url := "cg500_ble_app_v1.1.0.apk"
    download_size := 15728640
    release_notes := "• 新增設備連接穩定性改進\n• 修復藍牙掃描問題\n• UI 介面優化\n• 新增智能通知過濾功能"
    is_forced := false
    update_type := "recommended"
    release_date := "2024-01-15T10:00:00Z" }

/-- The `'default'` entry of `VERSION_CONFIG` (lines 54-62). -/
def entry_default : VersionEntry :=
  { latest_version := "1.1.0".data
    download_url := "cg500_ble_app_v1.1.0.apk"
    download_size := 15728640
    release_notes := "• 新增設備連接穩定性改進\n• 修復藍牙掃描問題\n• UI 介面優化\n• 新增智能通知過濾功能"
    is_forced := false
    update_type := "recommended"
    release_date := "2024-01-15T10:00:00Z" }

/-- The `VERSION_CONFIG` dict of `scripts/update_server.py` lines 44-63,
keyed by the raw current-version string. -/
def VERSION_CONFIG : List (List Char × VersionEntry) :=
  [("1.0.0".data, entry_1_0_0), ("default".data, entry_default)]

/-- `get_version_config` of `scripts/update_server.py` lines 75-77:
`VERSION_CONFIG.get(current_version, VERSION_CONFIG['default'])`. -/
def get_version_config (current_version : List Char) : VersionEntry :=
  (VERSION_CONFIG.lookup current_version).getD entry_default

/-- JSON values appearing in the `/api/version` response body. -/
inductive JVal where
  | vstr (v : List Char)
  | jstr (s : String)
  | jnat (n : ℕ)
  | jbool (b : Bool)
deriving DecidableEq

/-- Body of `check_version` of `scripts/update_server.py` lines 79-117, as
the ordered field list of `response_data`.  The `Current-Version` header
value (defaulted upstream to `'1.0.0'` when absent) is the input. -/
def check_version (current_version : List Char) : List (String × JVal) :=
  let config := get_version_config current_version
  let latest_version := config.latest_version
  let has_update := compare_versions latest_version current_version > 0
  let base := [("current_version", JVal.vstr current_version),
               ("latest_version", JVal.vstr latest_version),
               ("has_update", JVal.jbool has_update)]
  if has_update then
    base ++ [("download_url", JVal.jstr config.download_url),
             ("download_size", JVal.jnat config.download_size),
             ("release_notes", JVal.jstr config.release_notes),
             ("is_forced", JVal.jbool config.is_forced),
             ("update_type", JVal.jstr config.update_type),
             ("release_date", JVal.jstr config.release_date)]
  else base

/-- The `/api/version` route outcome: HTTP status plus body.  The only
non-200 status in the source is the blanket `except` returning 500, which
is unreachable in the modelled fragment because `compare_versions` catches
its own `ValueError` and both dict keys used always exist; no 400 path
exists in the source. -/
def check_version_route (current_version : List Char) :
    ℕ × List (String × JVal) :=
  (200, check_version current_version)

/-- Filename acceptance test of `download_apk`
(`scripts/update_server.py` lines 127-130):
`filename.replace('.', '').replace('-', '').replace('_', '').isalnum()`.
`str.isalnum` is modelled on ASCII via `Char.isAlphanum`; CPython also
accepts non-ASCII alphanumerics, outside the modelled character range. -/
def download_apk_filename_ok (filename : List Char) : Bool :=
  let r := filename.filter (fun c => !(c = '.' || c = '-' || c = '_'))
  !r.isEmpty && r.all Char.isAlphanum

end UpdateServer

/-- Modelled from the spec: the §4.4 filename rule `^[A-Za-z0-9._-]+$`
after stripping (ASCII whitespace) — the acceptance set the claim asserts. -/
def specFilenameOk (filename : List Char) : Bool :=
  let f := stripChars isPySpace filename
  !f.isEmpty && f.all (fun c => c.isAlphanum || c = '.' || c = '-' || c = '_')

/-- Modelled from the spec: the §4.1/§4.2 comparison law on version keys —
`(major, minor, patch)` lexicographically first, then the build where an
absent build sorts lower than any present build; result in `{-1, 0, 1}`
standing for `LESS`, `EQUAL`, `GREATER`. -/
def cmpInt (a b : ℤ) : ℤ :=
  if a < b then -1 else if b < a then 1 else 0

/-- Build-component comparison of the §4.1 law: absent sorts lowest. -/
def cmpBuild : Option ℕ → Option ℕ → ℤ
  | none, none => 0
  | none, some _ => -1
  | some _, none => 1
  | some x, some y => cmpInt x y

/-- Modelled from the spec: the full §4.1 comparison on version keys. -/
def cmpKey (a b : ℕ × ℕ × ℕ × Option ℕ) : ℤ :=
  if cmpInt a.1 b.1 ≠ 0 then cmpInt a.1 b.1
  else if cmpInt a.2.1 b.2.1 ≠ 0 then cmpInt a.2.1 b.2.1
  else if cmpInt a.2.2.1 b.2.2.1 ≠ 0 then cmpInt a.2.2.1 b.2.2.1
  else cmpBuild a.2.2.2 b.2.2.2

namespace TestVC

/-- Padding loop of `compare_versions` in `test_version_comparison.py`
lines 17-20: `while len(parts) < 3: parts.append(0)`. -/
def pad3 (l : List ℤ) : List ℤ :=
  l ++ List.replicate (3 - l.length) 0

/-- The index loop of `compare_versions` in `test_version_comparison.py`
lines 22-26: the first nonzero pairwise comparison of the first three
entries, `0` when all three agree. -/
def cmp3 (p1 p2 : List ℤ) : ℤ :=
  if cmpInt (p1.getD 0 0) (p2.getD 0 0) ≠ 0 then cmpInt (p1.getD 0 0) (p2.getD 0 0)
  else if cmpInt (p1.getD 1 0) (p2.getD 1 0) ≠ 0 then cmpInt (p1.getD 1 0) (p2.getD 1 0)
  else if cmpInt (p1.getD 2 0) (p2.getD 2 0) ≠ 0 then cmpInt (p1.getD 2 0) (p2.getD 2 0)
  else 0

/-- Build-number comparison of `compare_versions` in
`test_version_comparison.py` lines 32-41: both builds convert with `int()`
and compare; a failing conversion falls through to `return 0` via the bare
`except: pass`. -/
def buildCmp : Option ℤ → Option ℤ → ℤ
  | some build1, some build2 =>
    if build1 < build2 then -1 else if build2 < build1 then 1 else 0
  | _, _ => 0

/-- Body of `compare_versions` in `test_version_comparison.py` lines 16-47
after both part lists converted successfully: pad to three entries, compare
the first three, then the build-number section (lines 28-45). -/
def mainCmp (version1 version2 : List Char) (v1_parts v2_parts : List ℤ) : ℤ :=
  let p1 := pad3 v1_parts
  let p2 := pad3 v2_parts
  if cmp3 p1 p2 ≠ 0 then cmp3 p1 p2
  else
    let v1_build := pySplit '+' version1
    let v2_build := pySplit '+' version2
    if v1_build.length > 1 && v2_build.length > 1 then
      buildCmp (pyInt (v1_build.getD 1 [])) (pyInt (v2_build.getD 1 []))
    else if v2_build.length > 1 then -1
    else if v1_build.length > 1 then 1
    else 0

/-- `compare_versions` of `test_version_comparison.py` lines 6-50 (the
build-aware comparison the repository's tests exercise): strip the build
with `split('+')[0]`, convert the dot components with `int()`, and hand the
successful conversions to `mainCmp`; any conversion failure raises out of
the outer `try` and yields `0`. -/
def compare_versions (version1 version2 : List Char) : ℤ :=
  let v1_clean := (pySplit '+' version1).headD []
  let v2_clean := (pySplit '+' version2).headD []
  match pyIntList (pySplit '.' v1_clean), pyIntList (pySplit '.' v2_clean) with
  | some v1_parts, some v2_parts => mainCmp version1 version2 v1_parts v2_parts
  | _, _ => 0

end TestVC

/-! ### Character and digit-run facts -/

theorem ne_of_isDigit {c : Char} (h : c.isDigit = true) {d : Char}
    (hd : d.isDigit = false) : c ≠ d := by
  intro e; rw [e, hd] at h; cases h

theorem isPySpace_eq_false_of_isDigit {c : Char} (h : c.isDigit = true) :
    isPySpace c = false := by
  by_contra hn
  rw [Bool.not_eq_false] at hn
  simp only [isPySpace, Bool.or_eq_true, decide_eq_true_eq] at hn
  rcases hn with ((((e | e) | e) | e) | e) | e <;> subst e <;> simp at h

theorem not_mem_of_digits {d : List Char} (h : d.all Char.isDigit = true)
    {x : Char} (hx : x.isDigit = false) : x ∉ d := by
  intro hm
  rw [List.all_eq_true] at h
  exact ne_of_isDigit (h x hm) hx rfl

theorem takeWhile_all_append {p : Char → Bool} (d : List Char)
    (hd : d.all p = true) (c : Char) (r : List Char) (hc : p c = false) :
    (d ++ c :: r).takeWhile p = d ∧ (d ++ c :: r).dropWhile p = c :: r := by
  induction d with
  | nil =>
    simp [List.takeWhile_cons, List.dropWhile_cons, hc]
  | cons a d ih =>
    rw [List.all_cons, Bool.and_eq_true] at hd
    have := ih hd.2
    simp [List.takeWhile_cons, List.dropWhile_cons, hd.1, this.1, this.2]

theorem takeWhile_all_self {p : Char → Bool} (d : List Char)
    (hd : d.all p = true) : d.takeWhile p = d ∧ d.dropWhile p = [] := by
  induction d with
  | nil => simp
  | cons a d ih =>
    rw [List.all_cons, Bool.and_eq_true] at hd
    have := ih hd.2
    simp [List.takeWhile_cons, List.dropWhile_cons, hd.1, this.1, this.2]

theorem chompDigits_some {s d r : List Char}
    (h : chompDigits s = some (d, r)) : Digits1 d ∧ s = d ++ r := by
  unfold chompDigits at h
  split at h
  · cases h
  · rename_i hne
    injection h with h'
    obtain ⟨hd, hr⟩ : s.takeWhile Char.isDigit = d ∧ s.dropWhile Char.isDigit = r := by
      constructor <;> [exact congrArg Prod.fst h'; exact congrArg Prod.snd h']
    constructor
    · constructor
      · rw [← hd]; exact hne
      · rw [List.all_eq_true]
        intro x hx
        rw [← hd] at hx
        exact List.mem_takeWhile_imp hx
    · rw [← hd, ← hr, List.takeWhile_append_dropWhile]

theorem chompDigits_append {d : List Char} (hd : Digits1 d) {c : Char}
    (hc : c.isDigit = false) (r : List Char) :
    chompDigits (d ++ c :: r) = some (d, c :: r) := by
  obtain ⟨hne, hall⟩ := hd
  obtain ⟨ht, hr⟩ := takeWhile_all_append d hall c r hc
  unfold chompDigits
  rw [ht, hr, if_neg hne]

theorem chompDigits_self {d : List Char} (hd : Digits1 d) :
    chompDigits d = some (d, []) := by
  obtain ⟨hne, hall⟩ := hd
  obtain ⟨ht, hr⟩ := takeWhile_all_self d hall
  unfold chompDigits
  rw [ht, hr, if_neg hne]

/-! ### `pySplit` facts -/

theorem pySplit_of_not_mem {sep : Char} {l : List Char} (h : sep ∉ l) :
    pySplit sep l = [l] := by
  induction l with
  | nil => rfl
  | cons c cs ih =>
    have hc : c ≠ sep := fun e => h (e ▸ List.mem_cons_self c cs)
    have hcs : sep ∉ cs := fun m => h (List.mem_cons_of_mem c m)
    rw [pySplit, if_neg hc, ih hcs]
    rfl

theorem pySplit_append {sep : Char} {a : List Char} (h : sep ∉ a)
    (b : List Char) : pySplit sep (a ++ sep :: b) = a :: pySplit sep b := by
  induction a with
  | nil => simp [pySplit]
  | cons c cs ih =>
    have hc : c ≠ sep := fun e => h (e ▸ List.mem_cons_self c cs)
    have hcs : sep ∉ cs := fun m => h (List.mem_cons_of_mem c m)
    rw [List.cons_append, pySplit, if_neg hc, ih hcs]
    rfl

/-! ### `pyInt` facts -/

theorem dropWhile_of_all_neg {p : Char → Bool} {l : List Char}
    (h : ∀ c ∈ l, p c = false) : l.dropWhile p = l := by
  cases l with
  | nil => rfl
  | cons c cs =>
    have := h c (List.mem_cons_self c cs)
    simp [List.dropWhile_cons, this]

theorem stripChars_of_all_neg {p : Char → Bool} {l : List Char}
    (h : ∀ c ∈ l, p c = false) : stripChars p l = l := by
  unfold stripChars
  rw [dropWhile_of_all_neg h, dropWhile_of_all_neg (fun c hc => h c (List.mem_reverse.mp hc)),
    List.reverse_reverse]

theorem pyInt_digits {d : List Char} (hd : Digits1 d) :
    pyInt d = some ((digitsVal d : ℤ)) := by
  obtain ⟨hne, hall⟩ := hd
  have hnosp : ∀ c ∈ d, isPySpace c = false := by
    intro c hc
    rw [List.all_eq_true] at hall
    exact isPySpace_eq_false_of_isDigit (hall c hc)
  unfold pyInt
  rw [stripChars_of_all_neg hnosp]
  cases d with
  | nil => exact absurd rfl hne
  | cons c cs =>
    have hcd : c.isDigit = true := by
      rw [List.all_cons, Bool.and_eq_true] at hall; exact hall.1
    have h1 : c ≠ '+' := ne_of_isDigit hcd (by decide)
    have h2 : c ≠ '-' := ne_of_isDigit hcd (by decide)
    unfold pyIntCore
    rw [List.head?_cons, if_neg (by simpa using h1), if_neg (by simpa using h2)]
    unfold pyNatDigits
    rw [if_pos ⟨hne, hall⟩]
    rfl

theorem pyInt_digits_plus {d e : List Char} (hd : Digits1 d) (he : Digits1 e) :
    pyInt (d ++ '+' :: e) = none := by
  have hnosp : ∀ c ∈ d ++ '+' :: e, isPySpace c = false := by
    intro c hc
    rw [List.mem_append, List.mem_cons] at hc
    rcases hc with hc | hc | hc
    · exact isPySpace_eq_false_of_isDigit (List.all_eq_true.mp hd.2 c hc)
    · subst hc; decide
    · exact isPySpace_eq_false_of_isDigit (List.all_eq_true.mp he.2 c hc)
  unfold pyInt
  rw [stripChars_of_all_neg hnosp]
  obtain ⟨hne, hall⟩ := hd
  cases d with
  | nil => exact absurd rfl hne
  | cons c cs =>
    have hcd : c.isDigit = true := by
      rw [List.all_cons, Bool.and_eq_true] at hall; exact hall.1
    have h1 : c ≠ '+' := ne_of_isDigit hcd (by decide)
    have h2 : c ≠ '-' := ne_of_isDigit hcd (by decide)
    unfold pyIntCore
    rw [List.cons_append, List.head?_cons, if_neg (by simpa using h1),
      if_neg (by simpa using h2)]
    unfold pyNatDigits
    rw [if_neg]
    · rfl
    · rintro ⟨-, hall2⟩
      rw [List.all_eq_true] at hall2
      have := hall2 '+' (List.mem_cons_of_mem c (by simp))
      simp at this

theorem pyIntList_digits {ps : List (List Char)} (h : ∀ p ∈ ps, Digits1 p) :
    pyIntList ps = some (ps.map (fun p => (digitsVal p : ℤ))) := by
  induction ps with
  | nil => rfl
  | cons p ps ih =>
    rw [pyIntList, pyInt_digits (h p (List.mem_cons_self p ps)),
      ih (fun q hq => h q (List.mem_cons_of_mem p hq))]
    rfl

/-! ### `natDigits` facts -/

theorem digitChar_isDigit (n : ℕ) : (digitChar n).isDigit = true := by
  unfold digitChar; split_ifs <;> decide

theorem digitChar_val {n : ℕ} (h : n < 10) : (digitChar n).toNat - 48 = n := by
  interval_cases n <;> decide

theorem digitsVal_append_one (a : List Char) (c : Char) :
    digitsVal (a ++ [c]) = 10 * digitsVal a + (c.toNat - 48) := by
  simp [digitsVal, List.foldl_append]

theorem natDigitsAux_spec : ∀ fuel n : ℕ, n < fuel →
    Digits1 (natDigitsAux fuel n) ∧ digitsVal (natDigitsAux fuel n) = n := by
  intro fuel
  induction fuel with
  | zero => intro n h; omega
  | succ fuel ih =>
    intro n h
    rw [natDigitsAux]
    split
    · rename_i h10
      refine ⟨⟨by simp, by simp [digitChar_isDigit]⟩, ?_⟩
      simp [digitsVal, digitChar_val h10]
    · rename_i h10
      have hrec := ih (n / 10) (by omega)
      obtain ⟨⟨hne, hall⟩, hval⟩ := hrec
      refine ⟨⟨by simp, ?_⟩, ?_⟩
      · rw [List.all_append, Bool.and_eq_true]
        exact ⟨hall, by simp [digitChar_isDigit]⟩
      · rw [digitsVal_append_one, hval, digitChar_val (by omega)]
        omega

theorem natDigits_digits1 (n : ℕ) : Digits1 (natDigits n) :=
  (natDigitsAux_spec (n + 1) n (by omega)).1

theorem digitsVal_natDigits (n : ℕ) : digitsVal (natDigits n) = n :=
  (natDigitsAux_spec (n + 1) n (by omega)).2

/-! ### Grammar decomposition and construction -/

theorem expectChar_eq_some {c : Char} {l r : List Char} :
    expectChar c l = some r ↔ l = c :: r := by
  cases l with
  | nil => simp [expectChar]
  | cons x xs =>
    by_cases hx : x = c
    · subst hx; simp [expectChar]
    · simp [expectChar, hx, Ne.symm hx]

theorem specGroups_some {s : List Char} {d1 d2 d3 : List Char}
    {bo : Option (List Char)}
    (h : specGroups s = some (d1, d2, d3, bo)) :
    Digits1 d1 ∧ Digits1 d2 ∧ Digits1 d3 ∧
      ((bo = none ∧ s = d1 ++ '.' :: (d2 ++ '.' :: d3)) ∨
        ∃ d4, bo = some d4 ∧ Digits1 d4 ∧
          s = d1 ++ '.' :: (d2 ++ '.' :: (d3 ++ '+' :: d4))) := by
  unfold specGroups at h
  cases hc1 : chompDigits s with
  | none => rw [hc1] at h; cases h
  | some p1 =>
  rw [hc1] at h
  rw [Option.some_bind] at h
  obtain ⟨hD1, hs1⟩ := chompDigits_some hc1
  cases he1 : expectChar '.' p1.2 with
  | none => rw [he1] at h; cases h
  | some r1 =>
  rw [he1, Option.some_bind] at h
  rw [expectChar_eq_some] at he1
  cases hc2 : chompDigits r1 with
  | none => rw [hc2] at h; cases h
  | some p2 =>
  rw [hc2, Option.some_bind] at h
  obtain ⟨hD2, hs2⟩ := chompDigits_some hc2
  cases he2 : expectChar '.' p2.2 with
  | none => rw [he2] at h; cases h
  | some r2 =>
  rw [he2, Option.some_bind] at h
  rw [expectChar_eq_some] at he2
  cases hc3 : chompDigits r2 with
  | none => rw [hc3] at h; cases h
  | some p3 =>
  rw [hc3, Option.some_bind] at h
  obtain ⟨hD3, hs3⟩ := chompDigits_some hc3
  by_cases hr3 : p3.2 = []
  · rw [if_pos hr3] at h
    simp only [Option.some.injEq, Prod.mk.injEq] at h
    obtain ⟨h1, h2, h3, h4⟩ := h
    subst h1; subst h2; subst h3
    refine ⟨hD1, hD2, hD3, Or.inl ⟨h4.symm, ?_⟩⟩
    rw [hs1, he1, hs2, he2, hs3, hr3, List.append_nil]
  · rw [if_neg hr3] at h
    cases he3 : expectChar '+' p3.2 with
    | none => rw [he3] at h; cases h
    | some r3 =>
    rw [he3, Option.some_bind] at h
    rw [expectChar_eq_some] at he3
    cases hc4 : chompDigits r3 with
    | none => rw [hc4] at h; cases h
    | some p4 =>
    rw [hc4, Option.some_bind] at h
    obtain ⟨hD4, hs4⟩ := chompDigits_some hc4
    by_cases hr4 : p4.2 = []
    · rw [if_pos hr4] at h
      simp only [Option.some.injEq, Prod.mk.injEq] at h
      obtain ⟨h1, h2, h3, h4⟩ := h
      subst h1; subst h2; subst h3
      refine ⟨hD1, hD2, hD3, Or.inr ⟨p4.1, h4.symm, hD4, ?_⟩⟩
      rw [hs1, he1, hs2, he2, hs3, he3, hs4, hr4, List.append_nil]
    · rw [if_neg hr4] at h; cases h

theorem expectChar_cons_self (c : Char) (r : List Char) :
    expectChar c (c :: r) = some r := by
  simp [expectChar]

theorem parse_version_mk {d1 d2 d3 d4 : List Char} (t : List Char)
    (h1 : Digits1 d1) (h2 : Digits1 d2) (h3 : Digits1 d3) (h4 : Digits1 d4)
    (ht : t = [] ∨ t = ['\n']) :
    UpdateVersion.parse_version
        (d1 ++ '.' :: (d2 ++ '.' :: (d3 ++ '+' :: (d4 ++ t))))
      = some (digitsVal d1, digitsVal d2, digitsVal d3, digitsVal d4) := by
  unfold UpdateVersion.parse_version
  rw [chompDigits_append h1 (by decide)]
  simp only [Option.some_bind, expectChar_cons_self]
  rw [chompDigits_append h2 (by decide)]
  simp only [Option.some_bind, expectChar_cons_self]
  rw [chompDigits_append h3 (by decide)]
  simp only [Option.some_bind, expectChar_cons_self]
  rcases ht with ht | ht <;> subst ht
  · rw [List.append_nil, chompDigits_self h4]
    simp
  · rw [chompDigits_append h4 (by decide)]
    simp

theorem parse_version_some {s : List Char} {m n p b : ℕ}
    (h : UpdateVersion.parse_version s = some (m, n, p, b)) :
    ∃ d1 d2 d3 d4 t, Digits1 d1 ∧ Digits1 d2 ∧ Digits1 d3 ∧ Digits1 d4 ∧
      (t = [] ∨ t = ['\n']) ∧
      s = d1 ++ '.' :: (d2 ++ '.' :: (d3 ++ '+' :: (d4 ++ t))) ∧
      m = digitsVal d1 ∧ n = digitsVal d2 ∧ p = digitsVal d3 ∧
      b = digitsVal d4 := by
  unfold UpdateVersion.parse_version at h
  cases hc1 : chompDigits s with
  | none => rw [hc1] at h; cases h
  | some p1 =>
  rw [hc1, Option.some_bind] at h
  obtain ⟨hD1, hs1⟩ := chompDigits_some hc1
  cases he1 : expectChar '.' p1.2 with
  | none => rw [he1] at h; cases h
  | some r1 =>
  rw [he1, Option.some_bind] at h
  rw [expectChar_eq_some] at he1
  cases hc2 : chompDigits r1 with
  | none => rw [hc2] at h; cases h
  | some p2 =>
  rw [hc2, Option.some_bind] at h
  obtain ⟨hD2, hs2⟩ := chompDigits_some hc2
  cases he2 : expectChar '.' p2.2 with
  | none => rw [he2] at h; cases h
  | some r2 =>
  rw [he2, Option.some_bind] at h
  rw [expectChar_eq_some] at he2
  cases hc3 : chompDigits r2 with
  | none => rw [hc3] at h; cases h
  | some p3 =>
  rw [hc3, Option.some_bind] at h
  obtain ⟨hD3, hs3⟩ := chompDigits_some hc3
  cases he3 : expectChar '+' p3.2 with
  | none => rw [he3] at h; cases h
  | some r3 =>
  rw [he3, Option.some_bind] at h
  rw [expectChar_eq_some] at he3
  cases hc4 : chompDigits r3 with
  | none => rw [hc4] at h; cases h
  | some p4 =>
  rw [hc4, Option.some_bind] at h
  obtain ⟨hD4, hs4⟩ := chompDigits_some hc4
  by_cases hr4 : p4.2 = [] ∨ p4.2 = ['\n']
  · rw [if_pos hr4] at h
    simp only [Option.some.injEq, Prod.mk.injEq] at h
    obtain ⟨hm, hn, hp, hb⟩ := h
    refine ⟨p1.1, p2.1, p3.1, p4.1, p4.2, hD1, hD2, hD3, hD4, hr4, ?_,
      hm.symm, hn.symm, hp.symm, hb.symm⟩
    rw [hs1, he1, hs2, he2, hs3, he3, hs4]
  · rw [if_neg hr4] at h; cases h

/-! ### Splitting valid version texts -/

theorem pySplit_core {d1 d2 d3 : List Char} (h1 : Digits1 d1) (h2 : Digits1 d2)
    (h3 : Digits1 d3) :
    pySplit '.' (d1 ++ '.' :: (d2 ++ '.' :: d3)) = [d1, d2, d3] := by
  rw [pySplit_append (not_mem_of_digits h1.2 (by decide)),
    pySplit_append (not_mem_of_digits h2.2 (by decide)),
    pySplit_of_not_mem (not_mem_of_digits h3.2 (by decide))]

theorem plus_not_mem_core {d1 d2 d3 : List Char} (h1 : Digits1 d1)
    (h2 : Digits1 d2) (h3 : Digits1 d3) :
    '+' ∉ d1 ++ '.' :: (d2 ++ '.' :: d3) := by
  intro hm
  simp only [List.mem_append, List.mem_cons] at hm
  rcases hm with hm | hm | hm | hm | hm
  · exact not_mem_of_digits h1.2 (by decide) hm
  · cases hm
  · exact not_mem_of_digits h2.2 (by decide) hm
  · cases hm
  · exact not_mem_of_digits h3.2 (by decide) hm

theorem pySplit_plus_core {d1 d2 d3 : List Char} (h1 : Digits1 d1)
    (h2 : Digits1 d2) (h3 : Digits1 d3) :
    pySplit '+' (d1 ++ '.' :: (d2 ++ '.' :: d3))
      = [d1 ++ '.' :: (d2 ++ '.' :: d3)] :=
  pySplit_of_not_mem (plus_not_mem_core h1 h2 h3)

theorem pySplit_plus_coreb {d1 d2 d3 d4 : List Char} (h1 : Digits1 d1)
    (h2 : Digits1 d2) (h3 : Digits1 d3) (h4 : Digits1 d4) :
    pySplit '+' (d1 ++ '.' :: (d2 ++ '.' :: (d3 ++ '+' :: d4)))
      = [d1 ++ '.' :: (d2 ++ '.' :: d3), d4] := by
  have he : d1 ++ '.' :: (d2 ++ '.' :: (d3 ++ '+' :: d4))
      = (d1 ++ '.' :: (d2 ++ '.' :: d3)) ++ '+' :: d4 := by
    simp [List.append_assoc]
  rw [he, pySplit_append (plus_not_mem_core h1 h2 h3),
    pySplit_of_not_mem (not_mem_of_digits h4.2 (by decide))]

theorem parts_core {d1 d2 d3 : List Char} (h1 : Digits1 d1) (h2 : Digits1 d2)
    (h3 : Digits1 d3) :
    pyIntList (pySplit '.' (d1 ++ '.' :: (d2 ++ '.' :: d3)))
      = some [(digitsVal d1 : ℤ), (digitsVal d2 : ℤ), (digitsVal d3 : ℤ)] := by
  rw [pySplit_core h1 h2 h3,
    pyIntList_digits (by intro p hp; simp at hp; rcases hp with rfl | rfl | rfl <;> assumption)]
  simp

theorem parts_of_plus_core {d1 d2 d3 : List Char} (h1 : Digits1 d1)
    (h2 : Digits1 d2) (h3 : Digits1 d3) :
    pyIntList (pySplit '.'
        ((pySplit '+' (d1 ++ '.' :: (d2 ++ '.' :: d3))).headD []))
      = some [(digitsVal d1 : ℤ), (digitsVal d2 : ℤ), (digitsVal d3 : ℤ)] := by
  rw [pySplit_plus_core h1 h2 h3, List.headD_cons]
  exact parts_core h1 h2 h3

theorem parts_of_plus_coreb {d1 d2 d3 d4 : List Char} (h1 : Digits1 d1)
    (h2 : Digits1 d2) (h3 : Digits1 d3) (h4 : Digits1 d4) :
    pyIntList (pySplit '.'
        ((pySplit '+' (d1 ++ '.' :: (d2 ++ '.' :: (d3 ++ '+' :: d4)))).headD []))
      = some [(digitsVal d1 : ℤ), (digitsVal d2 : ℤ), (digitsVal d3 : ℤ)] := by
  rw [pySplit_plus_coreb h1 h2 h3 h4, List.headD_cons]
  exact parts_core h1 h2 h3

/-! ### Evaluation of the test comparison on valid versions -/

theorem compare_versions_eval {v1 v2 : List Char} {ps1 ps2 : List ℤ}
    (h1 : pyIntList (pySplit '.' ((pySplit '+' v1).headD [])) = some ps1)
    (h2 : pyIntList (pySplit '.' ((pySplit '+' v2).headD [])) = some ps2) :
    TestVC.compare_versions v1 v2 = TestVC.mainCmp v1 v2 ps1 ps2 := by
  simp only [TestVC.compare_versions]
  rw [h1, h2]

theorem pad3_three (a b c : ℤ) : TestVC.pad3 [a, b, c] = [a, b, c] := rfl

theorem cmp3_three (a1 a2 a3 b1 b2 b3 : ℤ) :
    TestVC.cmp3 [a1, a2, a3] [b1, b2, b3]
      = if cmpInt a1 b1 ≠ 0 then cmpInt a1 b1
        else if cmpInt a2 b2 ≠ 0 then cmpInt a2 b2
        else if cmpInt a3 b3 ≠ 0 then cmpInt a3 b3
        else 0 := rfl

theorem chain_eq (c1 c2 c3 B : ℤ) :
    (if (if c1 ≠ 0 then c1 else if c2 ≠ 0 then c2 else if c3 ≠ 0 then c3 else 0) ≠ 0
     then (if c1 ≠ 0 then c1 else if c2 ≠ 0 then c2 else if c3 ≠ 0 then c3 else 0)
     else B)
    = if c1 ≠ 0 then c1 else if c2 ≠ 0 then c2 else if c3 ≠ 0 then c3 else B := by
  by_cases e1 : c1 = 0 <;> by_cases e2 : c2 = 0 <;> by_cases e3 : c3 = 0 <;>
    simp [e1, e2, e3]

theorem compare_eq_cmpKey {s1 s2 : List Char}
    {g1 g2 : List Char × List Char × List Char × Option (List Char)}
    (hg1 : specGroups s1 = some g1) (hg2 : specGroups s2 = some g2) :
    TestVC.compare_versions s1 s2 = cmpKey (keyOf g1) (keyOf g2) := by
  obtain ⟨a1, a2, a3, ao⟩ := g1
  obtain ⟨b1, b2, b3, bo⟩ := g2
  obtain ⟨hA1, hA2, hA3, hAor⟩ := specGroups_some hg1
  obtain ⟨hB1, hB2, hB3, hBor⟩ := specGroups_some hg2
  rcases hAor with ⟨hao, hs1⟩ | ⟨da, hao, hDa, hs1⟩ <;>
    rcases hBor with ⟨hbo, hs2⟩ | ⟨db, hbo, hDb, hs2⟩ <;>
    subst hao <;> subst hbo <;> subst hs1 <;> subst hs2
  · rw [compare_versions_eval (parts_of_plus_core hA1 hA2 hA3)
      (parts_of_plus_core hB1 hB2 hB3)]
    simp only [TestVC.mainCmp, pad3_three]
    rw [pySplit_plus_core hA1 hA2 hA3, pySplit_plus_core hB1 hB2 hB3,
      cmp3_three, chain_eq]
    rfl
  · rw [compare_versions_eval (parts_of_plus_core hA1 hA2 hA3)
      (parts_of_plus_coreb hB1 hB2 hB3 hDb)]
    simp only [TestVC.mainCmp, pad3_three]
    rw [pySplit_plus_core hA1 hA2 hA3, pySplit_plus_coreb hB1 hB2 hB3 hDb,
      cmp3_three, chain_eq]
    rfl
  · rw [compare_versions_eval (parts_of_plus_coreb hA1 hA2 hA3 hDa)
      (parts_of_plus_core hB1 hB2 hB3)]
    simp only [TestVC.mainCmp, pad3_three]
    rw [pySplit_plus_coreb hA1 hA2 hA3 hDa, pySplit_plus_core hB1 hB2 hB3,
      cmp3_three, chain_eq]
    rfl
  · rw [compare_versions_eval (parts_of_plus_coreb hA1 hA2 hA3 hDa)
      (parts_of_plus_coreb hB1 hB2 hB3 hDb)]
    simp only [TestVC.mainCmp, pad3_three]
    rw [pySplit_plus_coreb hA1 hA2 hA3 hDa, pySplit_plus_coreb hB1 hB2 hB3 hDb,
      cmp3_three, chain_eq]
    simp only [List.getD_cons_succ, List.getD_cons_zero]
    rw [pyInt_digits hDa, pyInt_digits hDb]
    rfl

/-! ### Algebra of the specification comparison law -/

theorem cmpInt_antisym (a b : ℤ) : cmpInt a b = -cmpInt b a := by
  unfold cmpInt; split_ifs <;> omega

theorem cmpInt_eq_negone {a b : ℤ} : cmpInt a b = -1 ↔ a < b := by
  unfold cmpInt
  split_ifs with h1 h2 <;> simp_all

theorem cmpInt_eq_zero {a b : ℤ} : cmpInt a b = 0 ↔ a = b := by
  unfold cmpInt
  split_ifs with h1 h2 <;> simp_all <;> omega

theorem cmpBuild_antisym (x y : Option ℕ) : cmpBuild x y = -cmpBuild y x := by
  cases x <;> cases y
  · rfl
  · rfl
  · rfl
  · exact cmpInt_antisym _ _

theorem ite_chain_neg (c1 c2 c3 d1 d2 d3 B C : ℤ) (h1 : c1 = -d1)
    (h2 : c2 = -d2) (h3 : c3 = -d3) (hB : B = -C) :
    (if c1 ≠ 0 then c1 else if c2 ≠ 0 then c2 else if c3 ≠ 0 then c3 else B)
      = -(if d1 ≠ 0 then d1 else if d2 ≠ 0 then d2 else if d3 ≠ 0 then d3 else C) := by
  subst h1; subst h2; subst h3; subst hB
  by_cases e1 : d1 = 0 <;> by_cases e2 : d2 = 0 <;> by_cases e3 : d3 = 0 <;>
    simp [e1, e2, e3]

theorem cmpKey_antisym (a b : ℕ × ℕ × ℕ × Option ℕ) :
    cmpKey a b = -cmpKey b a := by
  obtain ⟨a1, a2, a3, ao⟩ := a
  obtain ⟨b1, b2, b3, bo⟩ := b
  exact ite_chain_neg _ _ _ _ _ _ _ _ (cmpInt_antisym _ _) (cmpInt_antisym _ _)
    (cmpInt_antisym _ _) (cmpBuild_antisym _ _)

/-- Strict build order: an absent build sorts below any present build. -/
def buildLt : Option ℕ → Option ℕ → Prop
  | none, some _ => True
  | some x, some y => x < y
  | _, _ => False

theorem cmpBuild_eq_negone {x y : Option ℕ} : cmpBuild x y = -1 ↔ buildLt x y := by
  cases x <;> cases y <;> simp [cmpBuild, buildLt, cmpInt_eq_negone]

theorem buildLt_trans {x y z : Option ℕ} (h1 : buildLt x y) (h2 : buildLt y z) :
    buildLt x z := by
  cases x <;> cases y <;> cases z <;> simp_all [buildLt]
  omega

/-- Strict order induced by the §4.1 comparison law. -/
def keyLt (a b : ℕ × ℕ × ℕ × Option ℕ) : Prop :=
  a.1 < b.1 ∨ (a.1 = b.1 ∧ (a.2.1 < b.2.1 ∨ (a.2.1 = b.2.1 ∧
    (a.2.2.1 < b.2.2.1 ∨ (a.2.2.1 = b.2.2.1 ∧ buildLt a.2.2.2 b.2.2.2)))))

theorem cmpKey_eq_negone {a b : ℕ × ℕ × ℕ × Option ℕ} :
    cmpKey a b = -1 ↔ keyLt a b := by
  obtain ⟨a1, a2, a3, ao⟩ := a
  obtain ⟨b1, b2, b3, bo⟩ := b
  unfold cmpKey keyLt
  by_cases e1 : cmpInt a1 b1 = 0 <;> by_cases e2 : cmpInt a2 b2 = 0 <;>
    by_cases e3 : cmpInt a3 b3 = 0 <;>
    simp only [e1, e2, e3, if_pos, if_neg, ne_eq, not_true_eq_false,
      not_false_eq_true, if_true, if_false, ite_not] <;>
    rw [cmpInt_eq_zero] at * <;>
    simp_all [cmpInt_eq_negone, cmpBuild_eq_negone]

theorem keyLt_trans {a b c : ℕ × ℕ × ℕ × Option ℕ} (h1 : keyLt a b)
    (h2 : keyLt b c) : keyLt a c := by
  obtain ⟨a1, a2, a3, ao⟩ := a
  obtain ⟨b1, b2, b3, bo⟩ := b
  obtain ⟨c1, c2, c3, co⟩ := c
  unfold keyLt at *
  simp only at *
  rcases h1 with h1 | ⟨e1, h1⟩ <;> rcases h2 with h2 | ⟨e2, h2⟩
  · exact Or.inl (by omega)
  · exact Or.inl (by omega)
  · exact Or.inl (by omega)
  · subst e1; subst e2
    refine Or.inr ⟨rfl, ?_⟩
    rcases h1 with h1 | ⟨f1, h1⟩ <;> rcases h2 with h2 | ⟨f2, h2⟩
    · exact Or.inl (by omega)
    · exact Or.inl (by omega)
    · exact Or.inl (by omega)
    · subst f1; subst f2
      refine Or.inr ⟨rfl, ?_⟩
      rcases h1 with h1 | ⟨g1, h1⟩ <;> rcases h2 with h2 | ⟨g2, h2⟩
      · exact Or.inl (by omega)
      · exact Or.inl (by omega)
      · exact Or.inl (by omega)
      · subst g1; subst g2
        exact Or.inr ⟨rfl, buildLt_trans h1 h2⟩

theorem cmpKey_same_triple (m n p : ℕ) (x y : Option ℕ) :
    cmpKey (m, n, p, x) (m, n, p, y) = cmpBuild x y := by
  unfold cmpKey
  rw [show cmpInt (m : ℤ) (m : ℤ) = 0 from cmpInt_eq_zero.mpr rfl,
    show cmpInt (n : ℤ) (n : ℤ) = 0 from cmpInt_eq_zero.mpr rfl,
    show cmpInt (p : ℤ) (p : ℤ) = 0 from cmpInt_eq_zero.mpr rfl]
  simp

/-! ### Claim C2 -/

/-- C2 (confirmed): the test-suite comparison orders `(major, minor, patch)`
lexicographically first and, when those agree, compares the build where an
absent build sorts strictly lower than any present build; on every pair of
valid versions it agrees with the §4.1 comparison law `cmpKey`, a version
without a build compares LESS (`-1`) against the same triple with a build,
`compare("1.0.4", "1.0.4+1") = -1`, and
`compare("1.0.4+5", "1.0.4+5") = 0`. -/
theorem absent_build_sorts_lower :
    (∀ s1 s2 g1 g2, specGroups s1 = some g1 → specGroups s2 = some g2 →
      TestVC.compare_versions s1 s2 = cmpKey (keyOf g1) (keyOf g2)) ∧
    (∀ s1 s2 d1 d2 d3 e1 e2 e3 f,
      specGroups s1 = some (d1, d2, d3, none) →
      specGroups s2 = some (e1, e2, e3, some f) →
      digitsVal d1 = digitsVal e1 → digitsVal d2 = digitsVal e2 →
      digitsVal d3 = digitsVal e3 →
      TestVC.compare_versions s1 s2 = -1 ∧
        TestVC.compare_versions s2 s1 = 1) ∧
    TestVC.compare_versions "1.0.4".data "1.0.4+1".data = -1 ∧
    TestVC.compare_versions "1.0.4+5".data "1.0.4+5".data = 0 := by
  refine ⟨fun s1 s2 g1 g2 hg1 hg2 => compare_eq_cmpKey hg1 hg2, ?_, by decide, by decide⟩
  intro s1 s2 d1 d2 d3 e1 e2 e3 f hg1 hg2 hv1 hv2 hv3
  rw [compare_eq_cmpKey hg1 hg2, compare_eq_cmpKey hg2 hg1]
  unfold keyOf
  simp only [Option.map_some, Option.map_none]
  rw [hv1, hv2, hv3, cmpKey_same_triple, cmpKey_same_triple]
  exact ⟨rfl, rfl⟩

/-- Witness for C2 at concrete inputs. -/
theorem absent_build_sorts_lower_concrete :
    TestVC.compare_versions "2.3.4".data "2.3.4+9".data = -1 ∧
      TestVC.compare_versions "2.3.4+9".data "2.3.4".data = 1 :=
  absent_build_sorts_lower.2.1 _ _ ['2'] ['3'] ['4'] ['2'] ['3'] ['4'] ['9']
    (by decide) (by decide) rfl rfl rfl

/-! ### Claim C7 -/

/-- C7 (confirmed): on valid versions the test-suite comparison is
antisymmetric, `compare(a, b) = -compare(b, a)`, and transitive on strict
LESS results. -/
theorem compare_antisym_trans :
    (∀ s1 s2 g1 g2, specGroups s1 = some g1 → specGroups s2 = some g2 →
      TestVC.compare_versions s1 s2 = -(TestVC.compare_versions s2 s1)) ∧
    (∀ s1 s2 s3 g1 g2 g3, specGroups s1 = some g1 → specGroups s2 = some g2 →
      specGroups s3 = some g3 →
      TestVC.compare_versions s1 s2 = -1 → TestVC.compare_versions s2 s3 = -1 →
      TestVC.compare_versions s1 s3 = -1) := by
  constructor
  · intro s1 s2 g1 g2 hg1 hg2
    rw [compare_eq_cmpKey hg1 hg2, compare_eq_cmpKey hg2 hg1]
    exact cmpKey_antisym _ _
  · intro s1 s2 s3 g1 g2 g3 hg1 hg2 hg3 h12 h23
    rw [compare_eq_cmpKey hg1 hg2] at h12
    rw [compare_eq_cmpKey hg2 hg3] at h23
    rw [compare_eq_cmpKey hg1 hg3, cmpKey_eq_negone]
    exact keyLt_trans (cmpKey_eq_negone.mp h12) (cmpKey_eq_negone.mp h23)

/-- Witness for C7 at concrete inputs. -/
theorem compare_antisym_trans_concrete :
    TestVC.compare_versions "1.0.3".data "1.0.4+5".data
        = -(TestVC.compare_versions "1.0.4+5".data "1.0.3".data) ∧
      TestVC.compare_versions "1.0.3".data "2.0.0+7".data = -1 :=
  ⟨compare_antisym_trans.1 "1.0.3".data "1.0.4+5".data
      (['1'], ['0'], ['3'], none) (['1'], ['0'], ['4'], some ['5'])
      (by decide) (by decide),
    compare_antisym_trans.2 "1.0.3".data "1.0.4+5".data "2.0.0+7".data
      (['1'], ['0'], ['3'], none) (['1'], ['0'], ['4'], some ['5'])
      (['2'], ['0'], ['0'], some ['7'])
      (by decide) (by decide) (by decide) (by decide) (by decide)⟩

/-! ### Claim C1 -/

/-- C1 (counterexample): the text `"1.0.0"` matches the claimed grammar
`\d+\.\d+\.\d+(\+\d+)?` (its build group is simply absent), yet
`parse_version` rejects it, refuting "parse succeeds exactly when the whole
text matches this grammar ... a plain three-component version like 1.0.0
must be accepted". -/
theorem parse_version_rejects_plain_triple :
    (specGroups "1.0.0".data).isSome = true ∧
      UpdateVersion.parse_version "1.0.0".data = none := by decide

/-- C1 (corrected): `parse_version` accepts a text if and only if it matches
the mandatory-build grammar `\d+\.\d+\.\d+\+\d+`, where the Python `$`
anchor also tolerates exactly one trailing newline; `"1.0.5+6"` parses to
`(1, 0, 5, 6)` and `"1.0.5+6extra"` fails. -/
theorem parse_version_accepts_iff_mandatory_build :
    (∀ s, (UpdateVersion.parse_version s).isSome = true ↔
      ∃ d1 d2 d3 d4 t, Digits1 d1 ∧ Digits1 d2 ∧ Digits1 d3 ∧ Digits1 d4 ∧
        (t = [] ∨ t = ['\n']) ∧
        s = d1 ++ '.' :: (d2 ++ '.' :: (d3 ++ '+' :: (d4 ++ t)))) ∧
    UpdateVersion.parse_version "1.0.5+6".data = some (1, 0, 5, 6) ∧
    UpdateVersion.parse_version "1.0.5+6extra".data = none := by
  refine ⟨?_, by decide, by decide⟩
  intro s
  constructor
  · intro h
    obtain ⟨⟨m, n, p, b⟩, hq⟩ := Option.isSome_iff_exists.mp h
    obtain ⟨d1, d2, d3, d4, t, h1, h2, h3, h4, ht, hs, -⟩ :=
      parse_version_some hq
    exact ⟨d1, d2, d3, d4, t, h1, h2, h3, h4, ht, hs⟩
  · rintro ⟨d1, d2, d3, d4, t, h1, h2, h3, h4, ht, rfl⟩
    rw [parse_version_mk t h1 h2 h3 h4 ht]
    rfl

/-- Witness for C1 at a concrete input. -/
theorem parse_version_accepts_concrete :
    (UpdateVersion.parse_version "7.8.9+10".data).isSome = true :=
  (parse_version_accepts_iff_mandatory_build.1 _).mpr
    ⟨['7'], ['8'], ['9'], ['1', '0'], [], by decide, by decide, by decide,
      by decide, Or.inl rfl, by decide⟩

/-! ### Claim C8 -/

/-- C8 (counterexample): `"2.3.4"` is valid per the §4.1 grammar but
`parse_version` fails on it, and `"01.2.3+4"` is valid yet
`format(parse("01.2.3+4")) = "1.2.3+4" ≠ "01.2.3+4"`; so
`format(parse(s)) = s` does not hold for every valid `s`. -/
theorem format_parse_roundtrip_fails :
    ((specGroups "2.3.4".data).isSome = true ∧
      UpdateVersion.parse_version "2.3.4".data = none) ∧
    ((specGroups "01.2.3+4".data).isSome = true ∧
      UpdateVersion.parse_version "01.2.3+4".data = some (1, 2, 3, 4) ∧
      UpdateVersion.format_version 1 2 3 4 ≠ "01.2.3+4".data) := by decide

/-- C8 (corrected): on canonically written versions with a mandatory build
suffix — exactly the strings produced by `format_version`, with no leading
zeros and no trailing newline — parsing succeeds and formatting inverts it:
`parse(format(v)) = v` and hence `format(parse(s)) = s` for every such `s`. -/
theorem parse_format_roundtrip :
    ∀ m n p b : ℕ,
      UpdateVersion.parse_version (UpdateVersion.format_version m n p b)
          = some (m, n, p, b) ∧
        (UpdateVersion.parse_version (UpdateVersion.format_version m n p b)).map
            (fun q => UpdateVersion.format_version q.1 q.2.1 q.2.2.1 q.2.2.2)
          = some (UpdateVersion.format_version m n p b) := by
  intro m n p b
  have h : UpdateVersion.parse_version (UpdateVersion.format_version m n p b)
      = some (m, n, p, b) := by
    have hmk := parse_version_mk ([] : List Char) (natDigits_digits1 m)
      (natDigits_digits1 n) (natDigits_digits1 p) (natDigits_digits1 b)
      (Or.inl rfl)
    rw [digitsVal_natDigits, digitsVal_natDigits, digitsVal_natDigits,
      digitsVal_natDigits] at hmk
    have he : natDigits m ++ '.' :: (natDigits n ++ '.' ::
        (natDigits p ++ '+' :: (natDigits b ++ ([] : List Char))))
        = UpdateVersion.format_version m n p b := by
      simp [UpdateVersion.format_version]
    rw [he] at hmk
    exact hmk
  refine ⟨h, ?_⟩
  rw [h]
  rfl

/-- Witness for C8 at a concrete input. -/
theorem parse_format_roundtrip_concrete :
    UpdateVersion.parse_version (UpdateVersion.format_version 1 0 5 6)
      = some (1, 0, 5, 6) :=
  (parse_format_roundtrip 1 0 5 6).1

/-! ### Server-side helper lemmas -/

theorem server_compare_eq_zero {v1 v2 : List Char}
    (h : UpdateServer.version_tuple v1 = none ∨
      UpdateServer.version_tuple v2 = none) :
    UpdateServer.compare_versions v1 v2 = 0 := by
  unfold UpdateServer.compare_versions
  rcases h with h | h
  · rw [h]
  · rw [h]
    cases UpdateServer.version_tuple v1 <;> rfl

theorem check_version_has_update (v : List Char) :
    (UpdateServer.check_version v).lookup "has_update"
      = some (UpdateServer.JVal.jbool
          (decide (UpdateServer.compare_versions
            (UpdateServer.get_version_config v).latest_version v > 0))) := by
  simp only [UpdateServer.check_version]
  by_cases h : UpdateServer.compare_versions
      (UpdateServer.get_version_config v).latest_version v > 0
  · rw [if_pos h]; rfl
  · rw [if_neg h]; rfl

/-! ### Claim C3 -/

/-- C3 (code_bug): take the well-formed client version `"1.0.3+4"`; the
server resolves it to the default release whose `latest_version` is
`"1.1.0"`, and the §4.1 comparison says the release is GREATER
(`cmpKey = 1`), so the claimed rule `hasUpdate = (compare(release.version,
clientVersion) == GREATER)` demands `hasUpdate = true` — but the server
responds `has_update = false`, because its `compare_versions` chokes on the
`+4` suffix and silently reports EQUAL.  The repository's own test files
(`test_version_comparison.py`, `test_update_simple.py`) implement the
build-aware comparison as the intended behaviour. -/
theorem server_ignores_build_metadata_bug :
    specParse "1.0.3+4".data = some (1, 0, 3, some 4) ∧
    (UpdateServer.get_version_config "1.0.3+4".data).latest_version
      = "1.1.0".data ∧
    specParse "1.1.0".data = some (1, 1, 0, none) ∧
    cmpKey (1, 1, 0, none) (1, 0, 3, some 4) = 1 ∧
    (UpdateServer.check_version "1.0.3+4".data).lookup "has_update"
      = some (UpdateServer.JVal.jbool false) := by decide

/-! ### Claim C10 -/

/-- C10 (confirmed): the server's `compare_versions` is total and returns
`0` (EQUAL) whenever either input fails to split into dot-separated
integers; consequently `check_version` reports `has_update = false` for
every client version string carrying build metadata (any valid
`\d+\.\d+\.\d+\+\d+` string such as `"1.0.3+4"`), no matter how old it is. -/
theorem server_compare_total_and_build_masks_update :
    (∀ v1 v2, (UpdateServer.version_tuple v1 = none ∨
        UpdateServer.version_tuple v2 = none) →
      UpdateServer.compare_versions v1 v2 = 0) ∧
    (∀ s d1 d2 d3 d4, specGroups s = some (d1, d2, d3, some d4) →
      (UpdateServer.check_version s).lookup "has_update"
        = some (UpdateServer.JVal.jbool false)) := by
  refine ⟨fun v1 v2 h => server_compare_eq_zero h, ?_⟩
  intro s d1 d2 d3 d4 hg
  obtain ⟨hD1, hD2, hD3, hor⟩ := specGroups_some hg
  rcases hor with ⟨heq, -⟩ | ⟨d4', heq, hD4, hs⟩
  · cases heq
  · injection heq with e
    subst e
    subst hs
    have hvt : UpdateServer.version_tuple
        (d1 ++ '.' :: (d2 ++ '.' :: (d3 ++ '+' :: d4))) = none := by
      unfold UpdateServer.version_tuple
      have hm3 : ('.' : Char) ∉ d3 ++ '+' :: d4 := by
        intro hm
        simp only [List.mem_append, List.mem_cons] at hm
        rcases hm with hm | hm | hm
        · exact not_mem_of_digits hD3.2 (by decide) hm
        · cases hm
        · exact not_mem_of_digits hD4.2 (by decide) hm
      rw [pySplit_append (not_mem_of_digits hD1.2 (by decide)),
        pySplit_append (not_mem_of_digits hD2.2 (by decide)),
        pySplit_of_not_mem hm3]
      simp [pyIntList, pyInt_digits hD1, pyInt_digits hD2,
        pyInt_digits_plus hD3 hD4]
    rw [check_version_has_update,
      server_compare_eq_zero (Or.inr hvt)]
    rfl

/-- Witness for C10 at concrete inputs. -/
theorem server_compare_total_concrete :
    UpdateServer.compare_versions "a".data "b".data = 0 ∧
      (UpdateServer.check_version "1.0.3+9".data).lookup "has_update"
        = some (UpdateServer.JVal.jbool false) :=
  ⟨server_compare_total_and_build_masks_update.1 "a".data "b".data
      (Or.inl (by decide)),
    server_compare_total_and_build_masks_update.2 "1.0.3+9".data
      ['1'] ['0'] ['3'] ['9'] (by decide)⟩

/-! ### Claim C4 -/

/-- C4 (counterexample): the current-version text `"0"` fails the §4.1
grammar, yet the route answers HTTP 200 with a computed `has_update` — here
even `has_update = true` — instead of the claimed 400 `MalformedVersion`
rejection before any decision logic. -/
theorem malformed_version_not_rejected :
    specGroups "0".data = none ∧
    UpdateServer.check_version_route "0".data
      = (200, UpdateServer.check_version "0".data) ∧
    (UpdateServer.check_version "0".data).lookup "has_update"
      = some (UpdateServer.JVal.jbool true) := by decide

/-- C4 (corrected): a malformed current-version text is never rejected: the
source has no 400 path, so every request whose reported version fails the
grammar still receives status 200 together with a computed `has_update`
field (the lenient comparison treats unparseable strings as EQUAL, while
grammar-violating but integer-parseable strings such as `"0"` can even
yield `has_update = true`). -/
theorem malformed_version_recovered_silently :
    ∀ v, specGroups v = none →
      (UpdateServer.check_version_route v).1 = 200 ∧
        ((UpdateServer.check_version_route v).2.lookup "has_update").isSome
          = true := by
  intro v hv
  refine ⟨rfl, ?_⟩
  show ((UpdateServer.check_version v).lookup "has_update").isSome = true
  rw [check_version_has_update]
  rfl

/-- Witness for C4 at a concrete input. -/
theorem malformed_version_recovered_concrete :
    (UpdateServer.check_version_route "abc".data).1 = 200 ∧
      ((UpdateServer.check_version_route "abc".data).2.lookup
          "has_update").isSome = true :=
  malformed_version_recovered_silently "abc".data (by decide)

/-! ### Claim C5 -/

/-- C5 (confirmed): catalog lookup is total — a key registered in
`VERSION_CONFIG` returns its own entry, any unregistered key degrades to
the `default` entry rather than an error, and `"unknown-cohort"` resolves
to the same descriptor as `"default"`. -/
theorem get_version_config_total :
    (∀ k e, UpdateServer.VERSION_CONFIG.lookup k = some e →
      UpdateServer.get_version_config k = e) ∧
    (∀ k, UpdateServer.VERSION_CONFIG.lookup k = none →
      UpdateServer.get_version_config k
        = UpdateServer.get_version_config "default".data) ∧
    UpdateServer.get_version_config "unknown-cohort".data
      = UpdateServer.get_version_config "default".data := by
  refine ⟨?_, ?_, by decide⟩
  · intro k e h
    unfold UpdateServer.get_version_config
    rw [h]
    rfl
  · intro k h
    unfold UpdateServer.get_version_config
    rw [h]
    rfl

/-- Witness for C5 at concrete inputs. -/
theorem get_version_config_total_concrete :
    UpdateServer.get_version_config "1.0.0".data = UpdateServer.entry_1_0_0 ∧
      UpdateServer.get_version_config "2.2.2".data
        = UpdateServer.get_version_config "default".data :=
  ⟨get_version_config_total.1 "1.0.0".data UpdateServer.entry_1_0_0
      (by decide),
    get_version_config_total.2.1 "2.2.2".data (by decide)⟩

/-! ### Claim C6 -/

/-- C6 (counterexample): `"..."` matches the claimed allow-set pattern
`^[A-Za-z0-9._-]+$` (also after stripping), yet `download_apk` rejects it,
because removing the punctuation leaves the empty string and `"".isalnum()`
is false; so acceptance is not equivalent to the claimed pattern. -/
theorem filename_validation_not_allowset_iff :
    specFilenameOk "...".data = true ∧
      UpdateServer.download_apk_filename_ok "...".data = false := by decide

/-- C6 (corrected): over ASCII inputs the filename check accepts exactly the
strings whose characters all lie in the allow-set `[A-Za-z0-9._-]` and that
contain at least one alphanumeric character (no whitespace stripping is
performed); every accepted name is free of path separators, and
`"../../etc/passwd"` is rejected before any filesystem access. -/
theorem filename_validation_characterization :
    (∀ f : List Char, (∀ c ∈ f, c.toNat ≤ 127) →
      (UpdateServer.download_apk_filename_ok f = true ↔
        ((∀ c ∈ f, c.isAlphanum = true ∨ c = '.' ∨ c = '-' ∨ c = '_') ∧
          ∃ c ∈ f, c.isAlphanum = true))) ∧
    (∀ f, UpdateServer.download_apk_filename_ok f = true →
      '/' ∉ f ∧ '\\' ∉ f) ∧
    UpdateServer.download_apk_filename_ok "../../etc/passwd".data = false := by
  refine ⟨?_, ?_, by decide⟩
  · intro f _hascii
    simp only [UpdateServer.download_apk_filename_ok, Bool.and_eq_true,
      Bool.not_eq_true']
    constructor
    · rintro ⟨hne, hall⟩
      rw [List.all_eq_true] at hall
      constructor
      · intro c hc
        by_cases h1 : c = '.'
        · exact Or.inr (Or.inl h1)
        by_cases h2 : c = '-'
        · exact Or.inr (Or.inr (Or.inl h2))
        by_cases h3 : c = '_'
        · exact Or.inr (Or.inr (Or.inr h3))
        refine Or.inl (hall c ?_)
        rw [List.mem_filter]
        exact ⟨hc, by simp [h1, h2, h3]⟩
      · have hnil : f.filter
            (fun c => !(c = '.' || c = '-' || c = '_')) ≠ [] := by
          intro e
          rw [e] at hne
          cases hne
        obtain ⟨c, hc⟩ := List.exists_mem_of_ne_nil _ hnil
        exact ⟨c, (List.mem_filter.mp hc).1, hall c hc⟩
    · rintro ⟨hallow, c0, hc0, ha0⟩
      have h1 : c0 ≠ '.' := fun e => absurd (e ▸ ha0) (by decide)
      have h2 : c0 ≠ '-' := fun e => absurd (e ▸ ha0) (by decide)
      have h3 : c0 ≠ '_' := fun e => absurd (e ▸ ha0) (by decide)
      have hc0r : c0 ∈ f.filter
          (fun c => !(c = '.' || c = '-' || c = '_')) :=
        List.mem_filter.mpr ⟨hc0, by simp [h1, h2, h3]⟩
      constructor
      · cases hfe : f.filter (fun c => !(c = '.' || c = '-' || c = '_')) with
        | nil => exact absurd hfe (List.ne_nil_of_mem hc0r)
        | cons a l => rfl
      · rw [List.all_eq_true]
        intro c hc
        obtain ⟨hcf, hcp⟩ := List.mem_filter.mp hc
        rcases hallow c hcf with h | h | h | h
        · exact h
        all_goals (subst h; simp at hcp)
  · intro f h
    simp only [UpdateServer.download_apk_filename_ok, Bool.and_eq_true,
      Bool.not_eq_true'] at h
    obtain ⟨-, hall⟩ := h
    rw [List.all_eq_true] at hall
    constructor <;> intro hm
    · exact absurd (hall _ (List.mem_filter.mpr ⟨hm, by decide⟩)) (by decide)
    · exact absurd (hall _ (List.mem_filter.mpr ⟨hm, by decide⟩)) (by decide)

/-- Witness for C6 at a concrete input. -/
theorem filename_validation_concrete :
    '/' ∉ "cg500_ble_app_v1.1.0.apk".data :=
  ((filename_validation_characterization.2.1 _ (by decide)).1)

/-! ### Claim C9 -/

/-- C9 (counterexample): for the registered cohort `"1.0.0"` the response
has `has_update = true` and carries the extra field `update_type`, which is
not among the fields the claim allows (wire names `current_version`,
`latest_version`, `has_update`, `download_url`, `download_size`,
`release_notes`, `is_forced`, `release_date` for the claim's
currentVersion, latestVersion, hasUpdate, downloadUrl, downloadSize,
releaseNotes, forced, releaseTimestamp); so "no other fields appear" is
false. -/
theorem response_fields_include_update_type :
    (UpdateServer.check_version "1.0.0".data).lookup "has_update"
        = some (UpdateServer.JVal.jbool true) ∧
      "update_type" ∈ (UpdateServer.check_version "1.0.0".data).map Prod.fst ∧
      "update_type" ∉ ["current_version", "latest_version", "has_update",
        "download_url", "download_size", "release_notes", "is_forced",
        "release_date"] := by decide

/-- C9 (corrected): the response contains exactly the fields
`{current_version, latest_version, has_update}` when `has_update` is false,
and exactly those plus `{download_url, download_size, release_notes,
is_forced, update_type, release_date}` — the claimed download-descriptor
fields together with `update_type` — when `has_update` is true. -/
theorem response_fields_exact :
    ∀ v, (UpdateServer.check_version v).map Prod.fst
      = if UpdateServer.compare_versions
            (UpdateServer.get_version_config v).latest_version v > 0 then
          ["current_version", "latest_version", "has_update", "download_url",
            "download_size", "release_notes", "is_forced", "update_type",
            "release_date"]
        else ["current_version", "latest_version", "has_update"] := by
  intro v
  simp only [UpdateServer.check_version]
  by_cases h : UpdateServer.compare_versions
      (UpdateServer.get_version_config v).latest_version v > 0
  · rw [if_pos h, if_pos h]
    rfl
  · rw [if_neg h, if_neg h]
    rfl

/-- Witness for C9 at concrete inputs (an updating and a non-updating
request). -/
theorem response_fields_exact_concrete :
    (UpdateServer.check_version "1.0.0".data).map Prod.fst
        = ["current_version", "latest_version", "has_update", "download_url",
          "download_size", "release_notes", "is_forced", "update_type",
          "release_date"] ∧
      (UpdateServer.check_version "1.1.0".data).map Prod.fst
        = ["current_version", "latest_version", "has_update"] := by
  constructor
  · rw [response_fields_exact "1.0.0".data]
    decide
  · rw [response_fields_exact "1.1.0".data]
    decide
